import Mathlib

/-!
Shallow embedding of the `fnplot` Go package (matthewdale/fnplot):
the value encoder (`writeBinary`, `smallestInt`, `smallestUint`), the scalar
converter (`Values.Scalar`), the concurrent bounds-tracking sample set
(`ValuesSet`, `NewValuesSet`, `Insert`), and the axis transforms with point
projection (`StdAxix`, `ScaledAxis`, `LnAxis`, `LnScaledAxis`, `PointsOn`).

Modelling conventions:
- Go's `big.Float` values are modelled as exact rationals (`ℚ`).  `big.NewFloat`
  on a finite `float64` is exact; `SetInt` rounds to the receiver's 53-bit
  precision, which is modelled faithfully by `round53`.  `Mul` and `Quo`
  rounding is modelled as exact rational arithmetic.
- Finite 32- and 64-bit floating-point values are modelled by the exact
  rational they denote (every finite IEEE float is a rational).
- The transcendental routine `bigfloat.Log` and the IEEE-754 byte encodings
  used by `binary.Write` for float fields inside compound values are
  uninterpreted: they are fields of an `Env` record and all theorems hold for
  every interpretation.
- Go's mutex-guarded `Insert` is linearizable, so concurrent executions are
  modelled as arbitrary sequential interleavings (`runInserts`).
- Go map iteration order is unspecified; a `mapV` carries its entries in one
  fixed iteration order.
- Nil pointers (`reflect.Indirect` reaching an invalid value) are not
  modelled: `ptrV` always wraps a value.
-/

namespace Fnplot

/-- Uninterpreted primitives: `lnF` models `bigfloat.Log` (finite result on the
positive arguments the code passes to it); `f32bytes`/`f64bytes` model the
4- and 8-byte big-endian IEEE-754 encodings `binary.Write` produces for `float32`
and `float64` data inside compound values. -/
structure Env where
  lnF : ℚ → ℚ
  f32bytes : ℚ → List Nat
  f64bytes : ℚ → List Nat

/-- A trivial interpretation of the uninterpreted primitives, used to
instantiate universally quantified theorems at concrete inputs. -/
def trivEnv : Env := ⟨fun _ => 0, fun _ => [], fun _ => []⟩

/-- A Go runtime value as classified by `writeBinary` and `Values.Scalar`
(source: values.go).  `invalid` is the zero `reflect.Value` (a `nil`
interface); `unsupportedV` stands for any value `binary.Write` rejects
(its `String` is the type description in the error). -/
inductive Value where
  | invalid
  | boolV (b : Bool)
  | intV (i : Int)
  | uintV (u : Nat)
  | float32V (q : ℚ)
  | float64V (q : ℚ)
  | byteV (b : Nat)
  | bytesV (bs : List Nat)
  | runeV (r : Int)
  | stringV (s : List Nat)
  | sliceV (l : List Value)
  | mapV (l : List (Value × Value))
  | ptrV (v : Value)
  | unsupportedV (t : String)

/-- `reflect.Value.IsValid`. -/
def Value.isValid : Value → Bool
  | .invalid => false
  | _ => true

/-- `indirect` (values.go): repeatedly dereference until a non-pointer. -/
def indirect : Value → Value
  | .ptrV v => indirect v
  | v => v

/-- Go `int`/`uint` are 64-bit in this program; reduce a model integer to the
value the Go variable would hold. -/
def wrapUint64 (x : Nat) : Nat := x % 18446744073709551616

def wrapInt64 (i : Int) : Int :=
  (i + 9223372036854775808) % 18446744073709551616 - 9223372036854775808

/-- Byte width (1, 2, 4 or 8) chosen by `smallestUint` (values.go): the
smallest fixed-size unsigned integer type that can store `x`. -/
def uintWidth (x : Nat) : Nat :=
  if x ≤ 255 then 1 else if x ≤ 65535 then 2 else if x ≤ 4294967295 then 4 else 8

/-- Byte width chosen by `smallestInt` (values.go) for a negative value. -/
def intWidth (i : Int) : Nat :=
  if -128 ≤ i then 1 else if -32768 ≤ i then 2 else if -2147483648 ≤ i then 4 else 8

/-- Big-endian bytes of `x` at width `w`, as written by `binary.Write` with
`binary.BigEndian` for a `w`-byte unsigned integer. -/
def beBytes : Nat → Nat → List Nat
  | 0, _ => []
  | w + 1, x => beBytes w (x / 256) ++ [x % 256]

/-- `smallestUint` followed by `binary.Write`: big-endian bytes at the
smallest sufficient width. -/
def smallestUintBytes (x : Nat) : List Nat :=
  beBytes (uintWidth (wrapUint64 x)) (wrapUint64 x)

/-- `smallestInt` followed by `binary.Write`: nonnegative values are delegated
to `smallestUint`; negative values are written as big-endian two's complement
at the smallest sufficient signed width. -/
def smallestIntBytes (i : Int) : List Nat :=
  let i := wrapInt64 i
  if 0 ≤ i then smallestUintBytes i.toNat
  else beBytes (intWidth i) ((i % ((256 : Int) ^ intWidth i)).toNat)

/-- `bytes.Buffer.WriteRune`, i.e. the UTF-8 encoding of a rune; invalid runes
(negative, surrogate, or above U+10FFFF) encode as U+FFFD, as in
`utf8.EncodeRune`. -/
def utf8Encode (r : Int) : List Nat :=
  if 0 ≤ r ∧ r < 128 then [r.toNat]
  else
    let c : Nat :=
      if 0 ≤ r ∧ r < 1114112 ∧ ¬(55296 ≤ r ∧ r < 57344) then r.toNat else 65533
    if c < 128 then [c]
    else if c < 2048 then [192 + c / 64, 128 + c % 64]
    else if c < 65536 then [224 + c / 4096, 128 + c / 64 % 64, 128 + c % 64]
    else [240 + c / 262144, 128 + c / 4096 % 64, 128 + c / 64 % 64, 128 + c % 64]

mutual

/-- `writeBinary` (values.go): returns the bytes appended to the buffer, or the
error.  Dispatch follows the source: invalid values contribute nothing; the
value is fully dereferenced; slices, arrays and maps are unpacked recursively
(each nested error is wrapped with context); bytes, byte slices, runes and
strings are written raw by the `bytes.Buffer`; `int`/`uint` are narrowed by
`smallestInt`/`smallestUint`; everything else goes to `binary.Write`, which
handles bools, fixed-width numerics, floats, and rejects the rest. -/
def writeBinary (env : Env) : Value → Except String (List Nat)
  | .invalid => .ok []
  | .ptrV v => writeBinary env v
  | .sliceV l =>
    match writeValueList env l with
    | .error e => .error ("error writing binary for slice or array value: " ++ e)
    | .ok bs => .ok bs
  | .mapV l =>
    match writePairList env l with
    | .error e => .error ("error writing binary for map entry: " ++ e)
    | .ok bs => .ok bs
  | .byteV b => .ok [b % 256]
  | .bytesV bs => .ok (bs.map (· % 256))
  | .runeV r => .ok (utf8Encode r)
  | .stringV s => .ok (s.map (· % 256))
  | .intV i => .ok (smallestIntBytes i)
  | .uintV u => .ok (smallestUintBytes u)
  | .boolV b => .ok [if b then 1 else 0]
  | .float32V q => .ok (env.f32bytes q)
  | .float64V q => .ok (env.f64bytes q)
  | .unsupportedV t => .error ("error converting value to binary: " ++ t)

/-- The slice/array unpacking loop of `writeBinary`: encode each element in
order and concatenate. -/
def writeValueList (env : Env) : List Value → Except String (List Nat)
  | [] => .ok []
  | v :: rest =>
    match writeBinary env v with
    | .error e => .error e
    | .ok b =>
      match writeValueList env rest with
      | .error e => .error e
      | .ok r => .ok (b ++ r)

/-- The map unpacking loop of `writeBinary`: for each entry, encode the key,
then the value. -/
def writePairList (env : Env) : List (Value × Value) → Except String (List Nat)
  | [] => .ok []
  | (k, v) :: rest =>
    match writeBinary env k with
    | .error e => .error e
    | .ok kb =>
      match writeBinary env v with
      | .error e => .error e
      | .ok vb =>
        match writePairList env rest with
        | .error e => .error e
        | .ok r => .ok (kb ++ vb ++ r)

end

/-- `big.NewInt(0).SetBytes`: interpret a byte buffer as a big-endian unsigned
integer. -/
def bytesToNat (bs : List Nat) : Nat :=
  bs.foldl (fun n b => n * 256 + b % 256) 0

/-- `big.NewFloat(0).SetInt`: `big.NewFloat` yields precision 53 and rounding
mode `ToNearestEven`, so `SetInt` rounds its argument to 53 significant bits,
half to even. -/
def round53 (n : Nat) : Nat :=
  if n < 9007199254740992 then n
  else
    let s := n.log2 + 1 - 53
    let q := n / 2 ^ s
    let r := n % 2 ^ s
    let h := 2 ^ (s - 1)
    (if h < r ∨ (r = h ∧ q % 2 = 1) then q + 1 else q) * 2 ^ s

/-- A `Values` is the ordered tuple of runtime values of one sample side. -/
abbrev Values := List Value

/-- The byte-encoding path of `Values.Scalar`: encode every element into one
buffer, read the buffer as a big-endian unsigned integer, convert it to a
`big.Float`. -/
def scalarBytes (env : Env) (vs : List Value) : Except String ℚ :=
  match writeValueList env vs with
  | .error e => .error ("error writing values as binary: " ++ e)
  | .ok bs => .ok ((round53 (bytesToNat bs) : ℕ) : ℚ)

/-- `Values.Scalar` (values.go): empty input yields 0; a single invalid value
yields 0; a single value that is (after full dereferencing) a 32- or 64-bit
float is returned directly as a `big.Float` (exact); everything else goes
through the byte-encoding path. -/
def Values.Scalar (env : Env) : Values → Except String ℚ
  | [] => .ok 0
  | [v] =>
    if v.isValid then
      match indirect v with
      | .float32V q => .ok q
      | .float64V q => .ok q
      | _ => scalarBytes env [v]
    else .ok 0
  | vs => scalarBytes env vs

/-- `ValuesSet` (fnplot.go): the stored `ioPair` list and the four lazily
initialized extrema.  The `sync.RWMutex` has no sequential content. -/
structure ValuesSet where
  ios : List (Values × Values)
  minInput : Option ℚ
  maxInput : Option ℚ
  minOutput : Option ℚ
  maxOutput : Option ℚ

/-- `NewValuesSet` (fnplot.go): `make([]ioPair, 10)` allocates a slice of
LENGTH 10, so the fresh set already stores ten zero-value pairs (each side a
nil `Values`, i.e. the empty list). -/
def NewValuesSet : ValuesSet :=
  ⟨List.replicate 10 (([] : Values), ([] : Values)), none, none, none, none⟩

/-- `if cur == nil || cur.Cmp(v) == 1 { cur = v }`: replace the minimum iff
unset or strictly greater than the new scalar. -/
def updMin : Option ℚ → ℚ → Option ℚ
  | none, v => some v
  | some m, v => if v < m then some v else some m

/-- `if cur == nil || cur.Cmp(v) == -1 { cur = v }`: replace the maximum iff
unset or strictly less than the new scalar. -/
def updMax : Option ℚ → ℚ → Option ℚ
  | none, v => some v
  | some m, v => if m < v then some v else some m

/-- `ValuesSet.Insert` (fnplot.go).  Note the order of operations in the
source: the pair is appended to `ios` BEFORE either scalar conversion runs;
the input extrema are updated before the output conversion runs.  Returns the
new state and the error (`none` on success). -/
def ValuesSet.Insert (set : ValuesSet) (env : Env) (input output : Values) :
    ValuesSet × Option String :=
  let set1 := { set with ios := set.ios ++ [(input, output)] }
  match Values.Scalar env input with
  | .error e => (set1, some ("error converting input to int: " ++ e))
  | .ok inv =>
    let set2 := { set1 with minInput := updMin set1.minInput inv,
                            maxInput := updMax set1.maxInput inv }
    match Values.Scalar env output with
    | .error e => (set2, some ("error converting output to int: " ++ e))
    | .ok outv =>
      ({ set2 with minOutput := updMin set2.minOutput outv,
                   maxOutput := updMax set2.maxOutput outv }, none)

/-- One `Insert` call, keeping only the state. -/
def insStep (env : Env) (s : ValuesSet) (p : Values × Values) : ValuesSet :=
  (s.Insert env p.1 p.2).1

/-- A sample set reachable by a sequence of `Insert` calls on a fresh set.
`Insert` holds the mutex for its whole body, so every concurrent execution is
equivalent to some such sequence. -/
def runInserts (env : Env) (ops : List (Values × Values)) : ValuesSet :=
  ops.foldl (insStep env) NewValuesSet

/-- The four axis variants (axis.go), keyed by their configuration. -/
inductive Axis where
  | std
  | scaled (Max : ℚ)
  | ln
  | lnScaled (Max : ℚ)

/-- An axis after its `SetMaxValue` calibration: the scaled variants now carry
their ratio. -/
inductive CAxis where
  | std
  | scaled (ratio : ℚ)
  | ln
  | lnScaled (ratio : ℚ)

/-- `SetMaxValue` (axis.go).  `StdAxix` and `LnAxis` ignore the argument.
`ScaledAxis` computes `ratio = Quo(NewFloat(Max), v)`: if `v` is nil the
division dereferences a nil `*big.Float` and panics, and if `Max` and `v` are
both zero `Quo` panics with `ErrNaN`; both panics are modelled as `none`.
`LnScaledAxis` divides by `bigfloat.Log(v)` instead. -/
def Axis.setMaxValue (env : Env) : Axis → Option ℚ → Option CAxis
  | .std, _ => some .std
  | .scaled _, none => none
  | .scaled Max, some m => if Max = 0 ∧ m = 0 then none else some (.scaled (Max / m))
  | .ln, _ => some .ln
  | .lnScaled _, none => none
  | .lnScaled Max, some m =>
    if Max = 0 ∧ env.lnF m = 0 then none else some (.lnScaled (Max / env.lnF m))

/-- `Point` (axis.go), modelled exactly over ℚ (the `Float64()` narrowing of
the result is dropped).  `StdAxix` returns the scalar; `ScaledAxis` multiplies
by the ratio; the log variants return 0 for a zero scalar — the special case
that keeps the natural log from producing negative infinity — and otherwise
apply `bigfloat.Log` (the uninterpreted `env.lnF`). -/
def CAxis.point (env : Env) : CAxis → ℚ → ℚ
  | .std, p => p
  | .scaled r, p => p * r
  | .ln, p => if p = 0 then 0 else env.lnF p
  | .lnScaled r, p => if p = 0 then 0 else env.lnF p * r

/-- Non-decreasing in the x coordinate: the order `sortablePoints` (fnplot.go)
sorts by. -/
def ptLE (p q : ℚ × ℚ) : Prop := p.1 ≤ q.1

instance : DecidableRel ptLE := fun p q => inferInstanceAs (Decidable (p.1 ≤ q.1))

instance : IsTotal (ℚ × ℚ) ptLE := ⟨fun a b => le_total a.1 b.1⟩

instance : IsTrans (ℚ × ℚ) ptLE := ⟨fun _ _ _ h1 h2 => le_trans h1 h2⟩

/-- `sort.Sort(sortablePoints(points))`: some sorted rearrangement; ties among
equal x are unspecified in the source, so any correct sort models it. -/
def sortPoints (l : List (ℚ × ℚ)) : List (ℚ × ℚ) := List.insertionSort ptLE l

/-- The projection loop of `PointsOn`: for each stored pair in order, convert
both sides to scalars (an error aborts the whole call) and project through the
calibrated axes.  The infinity diagnostic log in the source has no state
effect and is dropped. -/
def projectPoints (env : Env) (cx cy : CAxis) :
    List (Values × Values) → Except String (List (ℚ × ℚ))
  | [] => .ok []
  | (i, o) :: rest =>
    match Values.Scalar env i with
    | .error e => .error ("error converting input to int: " ++ e)
    | .ok si =>
      match Values.Scalar env o with
      | .error e => .error ("error converting output to int: " ++ e)
      | .ok so =>
        match projectPoints env cx cy rest with
        | .error e => .error e
        | .ok r => .ok ((CAxis.point env cx si, CAxis.point env cy so) :: r)

/-- Result of `PointsOn`: the sorted points, an error, or a runtime panic. -/
inductive POut where
  | ok (pts : List (ℚ × ℚ))
  | err (e : String)
  | panicked

/-- `ValuesSet.PointsOn` (fnplot.go): calibrate the x axis from `maxInput` and
the y axis from `maxOutput` (in that order — a panic in either aborts), project
every stored pair, sort ascending by x. -/
def ValuesSet.PointsOn (set : ValuesSet) (env : Env) (x y : Axis) : POut :=
  match Axis.setMaxValue env x set.maxInput with
  | none => .panicked
  | some cx =>
    match Axis.setMaxValue env y set.maxOutput with
    | none => .panicked
    | some cy =>
      match projectPoints env cx cy set.ios with
      | .error e => .err e
      | .ok pts => .ok (sortPoints pts)

/-! ### Basic facts about the embedding -/

instance {ε α : Type} [DecidableEq ε] [DecidableEq α] : DecidableEq (Except ε α) := fun a b =>
  match a, b with
  | .ok x, .ok y =>
    if h : x = y then .isTrue (by rw [h]) else .isFalse (fun hc => h (Except.ok.inj hc))
  | .error x, .error y =>
    if h : x = y then .isTrue (by rw [h]) else .isFalse (fun hc => h (Except.error.inj hc))
  | .ok _, .error _ => .isFalse (fun hc => Except.noConfusion hc)
  | .error _, .ok _ => .isFalse (fun hc => Except.noConfusion hc)

lemma updMin_some (m v : ℚ) : updMin (some m) v = some (min m v) := by
  show (if v < m then some v else some m) = some (min m v)
  rcases lt_or_le v m with h | h
  · rw [if_pos h, min_eq_right h.le]
  · rw [if_neg (not_lt.mpr h), min_eq_left h]

lemma updMax_some (m v : ℚ) : updMax (some m) v = some (max m v) := by
  show (if m < v then some v else some m) = some (max m v)
  rcases lt_or_le m v with h | h
  · rw [if_pos h, max_eq_right h.le]
  · rw [if_neg (not_lt.mpr h), max_eq_left h]

/-- `Insert` when the input conversion fails: the pair is appended, nothing
else changes, and the wrapped error is returned. -/
lemma Insert_err_input {env : Env} {s : ValuesSet} {i o : Values} {e : String}
    (hi : Values.Scalar env i = .error e) :
    s.Insert env i o =
      ({ s with ios := s.ios ++ [(i, o)] }, some ("error converting input to int: " ++ e)) := by
  simp [ValuesSet.Insert, hi]

/-- `Insert` when the input converts but the output conversion fails: the pair
is appended, the input extrema are updated, the output extrema are not. -/
lemma Insert_err_output {env : Env} {s : ValuesSet} {i o : Values} {a : ℚ} {e : String}
    (hi : Values.Scalar env i = .ok a) (ho : Values.Scalar env o = .error e) :
    s.Insert env i o =
      ({ s with ios := s.ios ++ [(i, o)],
                minInput := updMin s.minInput a, maxInput := updMax s.maxInput a },
       some ("error converting output to int: " ++ e)) := by
  simp [ValuesSet.Insert, hi, ho]

/-- `Insert` when both conversions succeed. -/
lemma Insert_ok {env : Env} {s : ValuesSet} {i o : Values} {a b : ℚ}
    (hi : Values.Scalar env i = .ok a) (ho : Values.Scalar env o = .ok b) :
    s.Insert env i o =
      ({ ios := s.ios ++ [(i, o)],
         minInput := updMin s.minInput a, maxInput := updMax s.maxInput a,
         minOutput := updMin s.minOutput b, maxOutput := updMax s.maxOutput b }, none) := by
  simp [ValuesSet.Insert, hi, ho]

/-- The bounds of `s` are set and enclose the scalars `a` (input side) and `b`
(output side). -/
def covers (s : ValuesSet) (a b : ℚ) : Prop :=
  ∃ mi Mi mo Mo, s.minInput = some mi ∧ s.maxInput = some Mi ∧
    s.minOutput = some mo ∧ s.maxOutput = some Mo ∧
    mi ≤ a ∧ a ≤ Mi ∧ mo ≤ b ∧ b ≤ Mo

lemma updMin_keeps {m a : ℚ} (v : ℚ) (h : m ≤ a) :
    ∃ x, updMin (some m) v = some x ∧ x ≤ a :=
  ⟨min m v, updMin_some m v, le_trans (min_le_left m v) h⟩

lemma updMax_keeps {M a : ℚ} (v : ℚ) (h : a ≤ M) :
    ∃ x, updMax (some M) v = some x ∧ a ≤ x :=
  ⟨max M v, updMax_some M v, le_trans h (le_max_left M v)⟩

lemma updMin_le_self (m : Option ℚ) (v : ℚ) : ∃ x, updMin m v = some x ∧ x ≤ v := by
  cases m with
  | none => exact ⟨v, rfl, le_refl v⟩
  | some m => exact ⟨min m v, updMin_some m v, min_le_right m v⟩

lemma updMax_ge_self (m : Option ℚ) (v : ℚ) : ∃ x, updMax m v = some x ∧ v ≤ x := by
  cases m with
  | none => exact ⟨v, rfl, le_refl v⟩
  | some m => exact ⟨max m v, updMax_some m v, le_max_right m v⟩

/-- Every single `Insert` call (successful or not) preserves enclosure of any
previously enclosed pair of scalars: the bounds only widen. -/
lemma covers_insStep (env : Env) (p : Values × Values) (s : ValuesSet) {a b : ℚ}
    (h : covers s a b) : covers (insStep env s p) a b := by
  obtain ⟨mi, Mi, mo, Mo, h1, h2, h3, h4, l1, l2, l3, l4⟩ := h
  obtain ⟨i, o⟩ := p
  unfold insStep
  rcases hi : Values.Scalar env i with e | x
  · rw [Insert_err_input hi]
    exact ⟨mi, Mi, mo, Mo, h1, h2, h3, h4, l1, l2, l3, l4⟩
  · obtain ⟨mi2, hmi2, lmi2⟩ := h1 ▸ updMin_keeps (m := mi) x l1
    obtain ⟨Mi2, hMi2, lMi2⟩ := h2 ▸ updMax_keeps (M := Mi) x l2
    rcases ho : Values.Scalar env o with e | y
    · rw [Insert_err_output hi ho]
      exact ⟨mi2, Mi2, mo, Mo, hmi2, hMi2, h3, h4, lmi2, lMi2, l3, l4⟩
    · obtain ⟨mo2, hmo2, lmo2⟩ := h3 ▸ updMin_keeps (m := mo) y l3
      obtain ⟨Mo2, hMo2, lMo2⟩ := h4 ▸ updMax_keeps (M := Mo) y l4
      rw [Insert_ok hi ho]
      exact ⟨mi2, Mi2, mo2, Mo2, hmi2, hMi2, hmo2, hMo2, lmi2, lMi2, lmo2, lMo2⟩

/-- A successful `Insert` call establishes enclosure of its own two scalars. -/
lemma insStep_covers (env : Env) (s : ValuesSet) {i o : Values} {a b : ℚ}
    (hi : Values.Scalar env i = .ok a) (ho : Values.Scalar env o = .ok b) :
    covers (insStep env s (i, o)) a b := by
  obtain ⟨mi, hmi, lmi⟩ := updMin_le_self s.minInput a
  obtain ⟨Mi, hMi, lMi⟩ := updMax_ge_self s.maxInput a
  obtain ⟨mo, hmo, lmo⟩ := updMin_le_self s.minOutput b
  obtain ⟨Mo, hMo, lMo⟩ := updMax_ge_self s.maxOutput b
  unfold insStep
  rw [Insert_ok hi ho]
  exact ⟨mi, Mi, mo, Mo, hmi, hMi, hmo, hMo, lmi, lMi, lmo, lMo⟩

lemma covers_foldl (env : Env) (ops : List (Values × Values)) {a b : ℚ} :
    ∀ s : ValuesSet, covers s a b → covers (ops.foldl (insStep env) s) a b := by
  induction ops with
  | nil => exact fun s h => h
  | cons p rest ih =>
    intro s h
    rw [List.foldl_cons]
    exact ih _ (covers_insStep env p s h)

/-- After any sequence of `Insert` calls containing a successful insert of
`(i, o)`, the final bounds enclose that insert's scalars — whatever the
initial state. -/
lemma covers_run (env : Env) (ops : List (Values × Values)) (i o : Values) (a b : ℚ)
    (hmem : (i, o) ∈ ops) (hi : Values.Scalar env i = .ok a)
    (ho : Values.Scalar env o = .ok b) :
    ∀ s : ValuesSet, covers (ops.foldl (insStep env) s) a b := by
  induction ops with
  | nil => cases hmem
  | cons p rest ih =>
    intro s
    rw [List.foldl_cons]
    rcases List.mem_cons.mp hmem with heq | hmem2
    · rw [← heq]
      exact covers_foldl env rest _ (insStep_covers env s hi ho)
    · exact ih hmem2 _

/-! ### Claim theorems -/

/-- Claim C1, counterexample: the claim says a failed `Insert` leaves the
stored list unchanged, but inserting an unconvertible input into a fresh set
returns an error AND grows the stored list by one, because the source appends
the pair before attempting either scalar conversion. -/
theorem insert_error_appends_cex :
    ((NewValuesSet.Insert trivEnv [Value.unsupportedV "chan int"] ([] : Values)).2).isSome = true
    ∧ (NewValuesSet.Insert trivEnv [Value.unsupportedV "chan int"] ([] : Values)).1.ios.length
        = NewValuesSet.ios.length + 1 :=
  ⟨rfl, rfl⟩

/-- Claim C1 as amended: when `Insert(input, output)` returns an error the
pair has nonetheless been appended to the stored list; the output extrema are
never modified by a failed insert; the input extrema are unmodified when the
input conversion failed, and have already been updated with the input's scalar
when only the output conversion failed. -/
theorem insert_error_state (env : Env) (s : ValuesSet) (i o : Values)
    (h : ((s.Insert env i o).2).isSome = true) :
    (s.Insert env i o).1.ios = s.ios ++ [(i, o)]
    ∧ (s.Insert env i o).1.minOutput = s.minOutput
    ∧ (s.Insert env i o).1.maxOutput = s.maxOutput
    ∧ ((∃ e, Values.Scalar env i = .error e) →
        (s.Insert env i o).1.minInput = s.minInput
        ∧ (s.Insert env i o).1.maxInput = s.maxInput)
    ∧ (∀ a, Values.Scalar env i = .ok a →
        (s.Insert env i o).1.minInput = updMin s.minInput a
        ∧ (s.Insert env i o).1.maxInput = updMax s.maxInput a) := by
  rcases hi : Values.Scalar env i with e | a
  · rw [Insert_err_input hi]
    refine ⟨rfl, rfl, rfl, fun _ => ⟨rfl, rfl⟩, fun a ha => ?_⟩
    cases ha
  · rcases ho : Values.Scalar env o with e | b
    · rw [Insert_err_output hi ho]
      refine ⟨rfl, rfl, rfl, fun he => ?_, fun x hx => ?_⟩
      · obtain ⟨e2, he2⟩ := he
        cases he2
      · cases hx
        exact ⟨rfl, rfl⟩
    · rw [Insert_ok hi ho] at h
      cases h

/-- Witness for `insert_error_state` at a concrete failing insert. -/
theorem insert_error_state_witness :
    (NewValuesSet.Insert trivEnv [Value.unsupportedV "chan int"] ([] : Values)).1.ios
      = NewValuesSet.ios ++ [([Value.unsupportedV "chan int"], ([] : Values))] :=
  (insert_error_state trivEnv NewValuesSet [Value.unsupportedV "chan int"] [] (by rfl)).1

/-- Claim C2: in every sample set reachable by a sequence of `Insert` calls,
for every pair whose insert completed successfully (both conversions returned
scalars `a` and `b`), the four extrema are set and satisfy
`minInput ≤ a ≤ maxInput` and `minOutput ≤ b ≤ maxOutput`.  The sequence may
continue past the insert, so this holds at all later times as well. -/
theorem insert_bounds_invariant (env : Env) (ops : List (Values × Values))
    (i o : Values) (a b : ℚ) (hmem : (i, o) ∈ ops)
    (hi : Values.Scalar env i = .ok a) (ho : Values.Scalar env o = .ok b) :
    ∃ mi Mi mo Mo,
      (runInserts env ops).minInput = some mi ∧ (runInserts env ops).maxInput = some Mi
      ∧ (runInserts env ops).minOutput = some mo ∧ (runInserts env ops).maxOutput = some Mo
      ∧ mi ≤ a ∧ a ≤ Mi ∧ mo ≤ b ∧ b ≤ Mo :=
  covers_run env ops i o a b hmem hi ho NewValuesSet

/-- Witness for `insert_bounds_invariant` at one concrete insert. -/
theorem insert_bounds_invariant_witness :
    ∃ mi Mi mo Mo,
      (runInserts trivEnv [([Value.byteV 3], [Value.byteV 5])]).minInput = some mi
      ∧ (runInserts trivEnv [([Value.byteV 3], [Value.byteV 5])]).maxInput = some Mi
      ∧ (runInserts trivEnv [([Value.byteV 3], [Value.byteV 5])]).minOutput = some mo
      ∧ (runInserts trivEnv [([Value.byteV 3], [Value.byteV 5])]).maxOutput = some Mo
      ∧ mi ≤ 3 ∧ (3 : ℚ) ≤ Mi ∧ mo ≤ 5 ∧ (5 : ℚ) ≤ Mo :=
  insert_bounds_invariant trivEnv [([Value.byteV 3], [Value.byteV 5])]
    [Value.byteV 3] [Value.byteV 5] 3 5 (List.mem_cons_self _ _) (by decide) (by decide)

/-- Claim C3 fails on the code: `NewValuesSet` builds the sample list with
`make([]ioPair, 10)` — length 10, not capacity 10 — so a fresh set already
stores ten zero-value samples and N successful inserts leave N + 10 stored
samples, not N.  This evaluates the code at the failing input N = 1: the
insert succeeds, yet the count is 11. -/
theorem valuesSet_size_bug :
    NewValuesSet.ios.length = 10
    ∧ (NewValuesSet.Insert trivEnv [Value.byteV 1] [Value.byteV 2]).2 = none
    ∧ (NewValuesSet.Insert trivEnv [Value.byteV 1] [Value.byteV 2]).1.ios.length = 11 :=
  ⟨rfl, rfl, rfl⟩

/-- `n` levels of Go pointer indirection. -/
def wrapPtrs : Nat → Value → Value
  | 0, v => v
  | n + 1, v => .ptrV (wrapPtrs n v)

lemma indirect_wrapPtrs (n : Nat) (v : Value) : indirect (wrapPtrs n v) = indirect v := by
  induction n with
  | zero => rfl
  | succ n ih => exact ih

lemma wrapPtrs_float64_isValid (n : Nat) (q : ℚ) :
    (wrapPtrs n (Value.float64V q)).isValid = true := by
  cases n <;> rfl

lemma wrapPtrs_float32_isValid (n : Nat) (q : ℚ) :
    (wrapPtrs n (Value.float32V q)).isValid = true := by
  cases n <;> rfl

/-- Claim C4: `Scalar` of a one-element sequence holding a 32- or 64-bit float
value `q` — directly (`n = 0`) or behind any number `n` of pointer
indirections — returns exactly `q`.  The byte encoding is bypassed: the result
holds for EVERY interpretation `env` of the float byte encoders, so the
encoders are never consulted. -/
theorem scalar_float_exact (env : Env) (n : Nat) (q : ℚ) :
    Values.Scalar env [wrapPtrs n (Value.float64V q)] = .ok q
    ∧ Values.Scalar env [wrapPtrs n (Value.float32V q)] = .ok q := by
  constructor
  · show (if (wrapPtrs n (Value.float64V q)).isValid then _ else _) = _
    rw [wrapPtrs_float64_isValid, if_pos rfl, indirect_wrapPtrs]
    rfl
  · show (if (wrapPtrs n (Value.float32V q)).isValid then _ else _) = _
    rw [wrapPtrs_float32_isValid, if_pos rfl, indirect_wrapPtrs]
    rfl

/-- Claim C5: whenever `PointsOn` succeeds, the returned point list is sorted
non-decreasing in the x coordinate (`ptLE`), for every sample set state — in
particular for every insertion order — and every pair of axes. -/
theorem pointsOn_sorted (env : Env) (set : ValuesSet) (x y : Axis)
    (pts : List (ℚ × ℚ)) (h : set.PointsOn env x y = POut.ok pts) :
    List.Sorted ptLE pts := by
  unfold ValuesSet.PointsOn at h
  rcases hx : Axis.setMaxValue env x set.maxInput with _ | cx <;> simp only [hx] at h
  · cases h
  rcases hy : Axis.setMaxValue env y set.maxOutput with _ | cy <;> simp only [hy] at h
  · cases h
  rcases hp : projectPoints env cx cy set.ios with e | l <;> simp only [hp] at h
  · cases h
  cases h
  exact List.sorted_insertionSort ptLE l

/-- Witness for `pointsOn_sorted` on the fresh sample set with standard axes
(its ten zero-value pairs all project to the origin). -/
theorem pointsOn_sorted_witness :
    ValuesSet.PointsOn NewValuesSet trivEnv Axis.std Axis.std
      = POut.ok (List.replicate 10 ((0 : ℚ), (0 : ℚ)))
    ∧ List.Sorted ptLE (List.replicate 10 ((0 : ℚ), (0 : ℚ))) :=
  ⟨by rfl, pointsOn_sorted trivEnv NewValuesSet Axis.std Axis.std _ (by rfl)⟩

/-- Claim C6, counterexample: the claim asserts that whenever no `Insert` has
succeeded, `maxInput` is nil — but a failed insert whose input converts and
whose output does not (so no `Insert` has succeeded) already sets
`maxInput`. -/
theorem nil_extrema_cex :
    ((NewValuesSet.Insert trivEnv [Value.byteV 1] [Value.unsupportedV "chan int"]).2).isSome
      = true
    ∧ (NewValuesSet.Insert trivEnv [Value.byteV 1]
        [Value.unsupportedV "chan int"]).1.maxInput = some 1 :=
  ⟨rfl, by decide⟩

/-- Claim C6 as amended: on a fresh sample set (no `Insert` made) both
`maxInput` and `maxOutput` are nil, and `PointsOn` with a `ScaledAxis` or
`LnScaledAxis` x axis then hands the nil extremum to `SetMaxValue`, whose
`big.Float` division dereferences nil and panics; after at least one
successful `Insert` both extrema are non-nil, so that nil-operand panic cannot
occur. -/
theorem scaled_axis_nil_max_panic (env : Env) :
    NewValuesSet.maxInput = none ∧ NewValuesSet.maxOutput = none
    ∧ (∀ M : ℚ, ∀ y : Axis,
        ValuesSet.PointsOn NewValuesSet env (Axis.scaled M) y = POut.panicked)
    ∧ (∀ M : ℚ, ∀ y : Axis,
        ValuesSet.PointsOn NewValuesSet env (Axis.lnScaled M) y = POut.panicked)
    ∧ (∀ ops : List (Values × Values), ∀ i o : Values, ∀ a b : ℚ,
        (i, o) ∈ ops → Values.Scalar env i = .ok a → Values.Scalar env o = .ok b →
        (runInserts env ops).maxInput.isSome = true
        ∧ (runInserts env ops).maxOutput.isSome = true) := by
  refine ⟨rfl, rfl, fun M y => rfl, fun M y => rfl, fun ops i o a b hmem hi ho => ?_⟩
  obtain ⟨mi, Mi, mo, Mo, h1, h2, h3, h4, _⟩ := covers_run env ops i o a b hmem hi ho NewValuesSet
  constructor
  · show ((ops.foldl (insStep env) NewValuesSet).maxInput).isSome = true
    rw [h2]
    rfl
  · show ((ops.foldl (insStep env) NewValuesSet).maxOutput).isSome = true
    rw [h4]
    rfl

/-- Witness for `scaled_axis_nil_max_panic`: the fresh-set panic and the
non-nil extremum after one concrete successful insert. -/
theorem scaled_axis_nil_max_panic_witness :
    ValuesSet.PointsOn NewValuesSet trivEnv (Axis.scaled 1) Axis.std = POut.panicked
    ∧ (runInserts trivEnv [([Value.byteV 3], [Value.byteV 5])]).maxInput.isSome = true := by
  have h := scaled_axis_nil_max_panic trivEnv
  exact ⟨h.2.2.1 1 Axis.std,
    (h.2.2.2.2 [([Value.byteV 3], [Value.byteV 5])] [Value.byteV 3] [Value.byteV 5] 3 5
      (List.mem_cons_self _ _) (by decide) (by decide)).1⟩

/-- Claim C7: calibrating a `ScaledAxis` with target `Max` at a nonzero
maximum scalar `M` stores the ratio `Max / M`, and projecting `M` itself then
yields exactly `Max` (`big.Float` rounding is modelled as exact rational
arithmetic, so "within floating-point rounding tolerance" becomes equality). -/
theorem scaled_point_max (env : Env) (Max M : ℚ) (h : M ≠ 0) :
    Axis.setMaxValue env (Axis.scaled Max) (some M) = some (CAxis.scaled (Max / M))
    ∧ CAxis.point env (CAxis.scaled (Max / M)) M = Max := by
  constructor
  · have hc : ¬(Max = 0 ∧ M = 0) := fun hc => h hc.2
    show (if Max = 0 ∧ M = 0 then none else some (CAxis.scaled (Max / M))) = _
    rw [if_neg hc]
  · show M * (Max / M) = Max
    rw [mul_comm, div_mul_cancel₀ _ h]

/-- Witness for `scaled_point_max` at `Max = 6`, `M = 2`. -/
theorem scaled_point_max_witness :
    Axis.setMaxValue trivEnv (Axis.scaled 6) (some 2) = some (CAxis.scaled (6 / 2))
    ∧ CAxis.point trivEnv (CAxis.scaled (6 / 2)) 2 = 6 :=
  scaled_point_max trivEnv 6 2 (two_ne_zero)

/-- Claim C8: for the `Ln` and `LnScaled` variants, in every calibration state
(`LnAxis` is stateless, `LnScaledAxis` may hold any ratio `r`), projecting the
scalar 0 returns exactly 0; on any nonzero scalar the result is the (finite)
log value instead, so the natural log — whose value at 0 would be negative
infinity — is never evaluated at 0. -/
theorem ln_point_zero (env : Env) (r : ℚ) :
    CAxis.point env CAxis.ln 0 = 0
    ∧ CAxis.point env (CAxis.lnScaled r) 0 = 0
    ∧ (∀ p : ℚ, p ≠ 0 →
        CAxis.point env CAxis.ln p = env.lnF p
        ∧ CAxis.point env (CAxis.lnScaled r) p = env.lnF p * r) := by
  refine ⟨by rfl, by rfl, fun p hp => ?_⟩
  constructor
  · show (if p = 0 then 0 else env.lnF p) = env.lnF p
    rw [if_neg hp]
  · show (if p = 0 then 0 else env.lnF p * r) = env.lnF p * r
    rw [if_neg hp]

/-- Witness for `ln_point_zero` at ratio 0 and the nonzero scalar 1. -/
theorem ln_point_zero_witness :
    CAxis.point trivEnv CAxis.ln 0 = 0
    ∧ CAxis.point trivEnv CAxis.ln 1 = trivEnv.lnF 1 := by
  have h := ln_point_zero trivEnv 0
  exact ⟨h.1, (h.2.2 1 one_ne_zero).1⟩

/-- Claim C9: bytes, byte sequences and strings are encoded as their raw bytes
— no length prefix, no type tag — and the concrete scalars follow:
`Scalar(Values{byte(100)}) = 100` and `Scalar` of the bytes (or the string)
"test" is 1952805748, the big-endian unsigned reading of its ASCII bytes. -/
theorem raw_byte_encoding (env : Env) :
    (∀ b : Nat, writeBinary env (Value.byteV b) = .ok [b % 256])
    ∧ (∀ bs : List Nat, writeBinary env (Value.bytesV bs) = .ok (bs.map (· % 256)))
    ∧ (∀ s : List Nat, writeBinary env (Value.stringV s) = .ok (s.map (· % 256)))
    ∧ Values.Scalar env [Value.byteV 100] = .ok 100
    ∧ Values.Scalar env [Value.bytesV [116, 101, 115, 116]] = .ok 1952805748
    ∧ Values.Scalar env [Value.stringV [116, 101, 115, 116]] = .ok 1952805748 :=
  ⟨fun b => rfl, fun bs => rfl, fun s => rfl, by rfl, by rfl, by rfl⟩

/-- Reading a big-endian byte string back as a two's-complement signed integer
at its own width (the inverse of what `binary.Write` produces for a signed
fixed-width type). -/
def twosDecode (bs : List Nat) : Int :=
  if (bytesToNat bs : Int) < 2 ^ (8 * bs.length - 1) then (bytesToNat bs : Int)
  else (bytesToNat bs : Int) - 2 ^ (8 * bs.length)

lemma bytesToNat_append_byte (l : List Nat) (b : Nat) :
    bytesToNat (l ++ [b]) = bytesToNat l * 256 + b % 256 := by
  unfold bytesToNat
  rw [List.foldl_append]
  rfl

lemma beBytes_length (w : Nat) : ∀ x, (beBytes w x).length = w := by
  induction w with
  | zero => intro x; rfl
  | succ w ih =>
    intro x
    show (beBytes w (x / 256) ++ [x % 256]).length = w + 1
    rw [List.length_append, ih]
    rfl

lemma bytesToNat_beBytes (w : Nat) : ∀ x, x < 256 ^ w → bytesToNat (beBytes w x) = x := by
  induction w with
  | zero =>
    intro x h
    have hx : x = 0 := by simpa using h
    subst hx
    rfl
  | succ w ih =>
    intro x h
    have hx : x / 256 < 256 ^ w := by
      rw [Nat.div_lt_iff_lt_mul (by norm_num : 0 < 256)]
      calc x < 256 ^ (w + 1) := h
        _ = 256 ^ w * 256 := pow_succ 256 w
    show bytesToNat (beBytes w (x / 256) ++ [x % 256]) = x
    rw [bytesToNat_append_byte, ih _ hx]
    omega

lemma wrapUint64_eq (x : Nat) (h : x < 18446744073709551616) : wrapUint64 x = x :=
  Nat.mod_eq_of_lt h

lemma wrapInt64_eq (i : Int) (h1 : -9223372036854775808 ≤ i)
    (h2 : i < 9223372036854775808) : wrapInt64 i = i := by
  unfold wrapInt64
  omega

lemma uintWidth_pow (x : Nat) (h : x < 18446744073709551616) : x < 256 ^ uintWidth x := by
  unfold uintWidth
  split_ifs with h1 h2 h3 <;> norm_num <;> omega

lemma twosDecode_beBytes (w : Nat) (i : Int) (hw : 0 < w)
    (hlo : -(2 ^ (8 * w - 1) : Int) ≤ i) (hneg : i < 0) :
    twosDecode (beBytes w (i % ((256 : Int) ^ w)).toNat) = i := by
  have h256 : (256 : Int) ^ w = 2 ^ (8 * w) := by
    rw [show (256 : Int) = 2 ^ 8 by norm_num, ← pow_mul]
  have hsplit : (2 : Int) ^ (8 * w - 1) * 2 = 2 ^ (8 * w) := by
    rw [← pow_succ]
    congr 1
    omega
  have hhalf_pos : (0 : Int) ≤ 2 ^ (8 * w - 1) := by positivity
  have ha : (0 : Int) ≤ i + 2 ^ (8 * w) := by linarith
  have hb : i + 2 ^ (8 * w) < 2 ^ (8 * w) := by linarith
  have hmod : i % ((256 : Int) ^ w) = i + 2 ^ (8 * w) := by
    have e1 : (i + 2 ^ (8 * w) * 1) % 2 ^ (8 * w) = i % 2 ^ (8 * w) :=
      Int.add_mul_emod_self_left i (2 ^ (8 * w)) 1
    rw [mul_one] at e1
    rw [h256, ← e1, Int.emod_eq_of_lt ha hb]
  have hn : ((i % ((256 : Int) ^ w)).toNat : Int) = i + 2 ^ (8 * w) := by
    rw [hmod, Int.toNat_of_nonneg ha]
  have hnNat : (i % ((256 : Int) ^ w)).toNat < 256 ^ w := by
    have hcast : (((i % ((256 : Int) ^ w)).toNat : Int)) < ((256 ^ w : Nat) : Int) := by
      rw [hn]
      push_cast
      rw [h256]
      exact hb
    exact_mod_cast hcast
  unfold twosDecode
  rw [bytesToNat_beBytes w _ hnNat, beBytes_length w]
  have hcond : ¬ ((((i % ((256 : Int) ^ w)).toNat : Nat) : Int) < 2 ^ (8 * w - 1)) := by
    rw [hn]
    linarith
  rw [if_neg hcond, hn]
  ring

/-- Claim C10: `smallestUint` narrowing followed by the big-endian write is
lossless for every 64-bit value (reading the bytes back as a big-endian
unsigned integer restores the value), the chosen width is the smallest of
8/16/32/64 bits that holds the value, negative `int` values round-trip through
their two's-complement encoding at the smallest sufficient signed width, and
in particular `Scalar(Values{2^31})` is exactly 2147483648. -/
theorem smallest_width_no_truncation :
    (∀ x : Nat, x < 18446744073709551616 → bytesToNat (smallestUintBytes x) = x)
    ∧ (∀ x : Nat, (uintWidth x = 1 ↔ x < 256) ∧ (uintWidth x ≤ 2 ↔ x < 65536)
        ∧ (uintWidth x ≤ 4 ↔ x < 4294967296) ∧ uintWidth x ≤ 8)
    ∧ (∀ i : Int, -9223372036854775808 ≤ i → i < 0 → twosDecode (smallestIntBytes i) = i)
    ∧ (∀ env : Env, Values.Scalar env [Value.intV 2147483648] = .ok 2147483648) := by
  refine ⟨fun x hx => ?_, fun x => ?_, fun i hi1 hi2 => ?_, fun env => by rfl⟩
  · show bytesToNat (beBytes (uintWidth (wrapUint64 x)) (wrapUint64 x)) = x
    rw [wrapUint64_eq x hx]
    exact bytesToNat_beBytes _ _ (uintWidth_pow x hx)
  · unfold uintWidth
    split_ifs <;> omega
  · have hw : wrapInt64 i = i := wrapInt64_eq i hi1 (by omega)
    show twosDecode (smallestIntBytes i) = i
    simp only [smallestIntBytes, hw]
    rw [if_neg (by omega : ¬ (0 : Int) ≤ i)]
    unfold intWidth
    split_ifs with g1 g2 g3
    · exact twosDecode_beBytes 1 i one_pos (by norm_num; omega) hi2
    · exact twosDecode_beBytes 2 i (by norm_num) (by norm_num; omega) hi2
    · exact twosDecode_beBytes 4 i (by norm_num) (by norm_num; omega) hi2
    · exact twosDecode_beBytes 8 i (by norm_num) (by norm_num; omega) hi2

/-- Witness for `smallest_width_no_truncation` at `2^31` and `-129`. -/
theorem smallest_width_no_truncation_witness :
    bytesToNat (smallestUintBytes 2147483648) = 2147483648
    ∧ twosDecode (smallestIntBytes (-129)) = -129 := by
  have h := smallest_width_no_truncation
  exact ⟨h.1 2147483648 (by decide), h.2.2.1 (-129) (by decide) (by decide)⟩

end Fnplot
